import Mathlib

/-!
Verification of the audio sample-rate conversion and channel/bit-depth
normalization pipeline (package `convert`: `fastCos01`, `fastSin01`, `sinc01`,
`Resampling`, `Stereo16`).

Modelling conventions:
* Go `int`/`int64` arithmetic is modelled on `ℤ`; Go `/` and `%` round toward
  zero, written `Int.tdiv` / `Int.tmod` (all operands in this code are
  nonnegative where `%` is used, so `Int.emod` agrees and is used with a note).
* Go `float64` arithmetic is modelled exactly on `ℚ` (for index/length
  computations) or on `ℝ` (for the trigonometric kernel).  All concrete
  inputs used in counterexamples and witnesses are small dyadic rationals on
  which the `float64` computations of the source are exact.
* Go's `int64(f)` conversion of a `float64` truncates toward zero.
* Fallible operations return `Except IOErr`; the upstream byte stream is
  modelled by an oracle giving each `Seek`/`Read` outcome.
-/

set_option maxRecDepth 4000

/-- Truncation toward zero of a rational: the value of Go's `int64(f)`
conversion for an exact `float64` value `f`. -/
def ratTrunc (q : ℚ) : ℤ := if 0 ≤ q then ⌊q⌋ else ⌈q⌉

theorem ratTrunc_nonneg {q : ℚ} (h : 0 ≤ q) : ratTrunc q = ⌊q⌋ := by
  simp [ratTrunc, h]

theorem ratTrunc_neg {q : ℚ} (h : q < 0) : ratTrunc q = ⌈q⌉ := by
  simp [ratTrunc, not_le.mpr h]

theorem max_ratTrunc_zero (q : ℚ) : max (ratTrunc q) 0 = max ⌊q⌋ 0 := by
  rcases le_or_lt 0 q with h | h
  · rw [ratTrunc_nonneg h]
  · rw [ratTrunc_neg h]
    have h1 : ⌈q⌉ ≤ 0 := Int.ceil_le.mpr (by exact_mod_cast h.le)
    have h2 : ⌊q⌋ ≤ 0 := Int.floor_nonpos h.le
    omega

section FastCos

/-!
Model of the quarter-period cosine lookup table and of `fastCos01`
(`part_002`, lines 9-45).  The table holds `cosTable[i] = cos(i·(π/2)/65536)`
for `0 ≤ i < 65536`.  A table read is modelled as a partial operation
(`cosTableGet`), so that an out-of-bounds index would surface as `none`;
`fastCos01` therefore returns `Option ℝ`.
-/

/-- Entry `i` of the 65536-entry quarter-period cosine table, as initialized
by the package `init` function. -/
noncomputable def cosTable (i : ℕ) : ℝ := Real.cos ((i : ℝ) * Real.pi / 2 / 65536)

/-- Bounds-checked table access: `some (cosTable i)` when `0 ≤ i < 65536`,
`none` on an out-of-bounds index (a Go panic). -/
noncomputable def cosTableGet (i : ℤ) : Option ℝ :=
  if 0 ≤ i ∧ i < 65536 then some (cosTable i.toNat) else none

/-- Index computed by `i := int(4 * float64(len(cosTable)) * x)` after
`x = -x` for negative input; the factor is `4 * 65536 = 262144`.  The
argument of the conversion is nonnegative, so truncation is `Int.floor`. -/
noncomputable def foldIdx0 (x : ℝ) : ℤ := ⌊262144 * |x|⌋

/-- Index after the conditional reduction `if 4*len(cosTable) < i { i %= 4*len(cosTable) }`.
Both operands are nonnegative, so Go's `%` agrees with `Int.emod`. -/
noncomputable def foldIdx1 (x : ℝ) : ℤ :=
  if 262144 < foldIdx0 x then Int.emod (foldIdx0 x) 262144 else foldIdx0 x

/-- Quadrant fold of `fastCos01` (the `switch` on lines 26-36): returns the
sign and the folded table index. -/
noncomputable def cosFold (x : ℝ) : ℤ × ℤ :=
  if foldIdx1 x < 65536 then (1, foldIdx1 x)
  else if foldIdx1 x < 131072 then (-1, 131072 - foldIdx1 x)
  else if foldIdx1 x < 196608 then (-1, foldIdx1 x - 131072)
  else (1, 262144 - foldIdx1 x)

/-- Model of `fastCos01`: the special case `i == len(cosTable)` returns `0`,
otherwise the table is read at the folded index and multiplied by the sign. -/
noncomputable def fastCos01 (x : ℝ) : Option ℝ :=
  if (cosFold x).2 = 65536 then some 0
  else (cosTableGet (cosFold x).2).map (fun c => ((cosFold x).1 : ℝ) * c)

theorem foldIdx0_nonneg (x : ℝ) : 0 ≤ foldIdx0 x :=
  Int.floor_nonneg.mpr (by positivity)

theorem foldIdx1_bounds (x : ℝ) : 0 ≤ foldIdx1 x ∧ foldIdx1 x ≤ 262144 := by
  unfold foldIdx1
  have h0 := foldIdx0_nonneg x
  have hm : Int.emod (foldIdx0 x) 262144 = foldIdx0 x % 262144 := rfl
  split
  · constructor
    · rw [hm]; omega
    · rw [hm]; omega
  · omega

theorem cosFold_idx_bounds (x : ℝ) : 0 ≤ (cosFold x).2 ∧ (cosFold x).2 ≤ 65536 := by
  unfold cosFold
  have h := foldIdx1_bounds x
  split
  · constructor <;> omega
  · split
    · simp only
      omega
    · split
      · simp only
        omega
      · simp only
        omega

theorem cosFold_sign (x : ℝ) : (cosFold x).1 = 1 ∨ (cosFold x).1 = -1 := by
  unfold cosFold
  split
  · left; rfl
  · split
    · right; rfl
    · split
      · right; rfl
      · left; rfl

end FastCos

section FastCosLemmas

theorem foldIdx0_neg (x : ℝ) : foldIdx0 (-x) = foldIdx0 x := by
  simp [foldIdx0, abs_neg]

theorem foldIdx1_neg (x : ℝ) : foldIdx1 (-x) = foldIdx1 x := by
  simp [foldIdx1, foldIdx0_neg]

theorem cosFold_neg (x : ℝ) : cosFold (-x) = cosFold x := by
  simp [cosFold, foldIdx1_neg]

theorem foldIdx0_eval_0 : foldIdx0 0 = 0 := by
  unfold foldIdx0
  rw [abs_zero]
  norm_num

theorem foldIdx0_eval_quarter : foldIdx0 (1/4 : ℝ) = 65536 := by
  unfold foldIdx0
  rw [abs_of_nonneg (by norm_num)]
  norm_num

theorem foldIdx0_eval_half : foldIdx0 (1/2 : ℝ) = 131072 := by
  unfold foldIdx0
  rw [abs_of_nonneg (by norm_num)]
  norm_num

theorem foldIdx0_eval_threequarter : foldIdx0 (3/4 : ℝ) = 196608 := by
  unfold foldIdx0
  rw [abs_of_nonneg (by norm_num)]
  norm_num

theorem foldIdx0_eval_one : foldIdx0 (1 : ℝ) = 262144 := by
  unfold foldIdx0
  rw [abs_of_nonneg (by norm_num)]
  norm_num

theorem cosTable_zero : cosTable 0 = 1 := by
  simp [cosTable]

end FastCosLemmas

theorem cosFold_eval_0 : cosFold 0 = (1, 0) := by
  have h1 : foldIdx1 0 = 0 := by
    unfold foldIdx1
    rw [foldIdx0_eval_0]
    norm_num
  unfold cosFold
  rw [h1]
  norm_num

theorem cosFold_eval_quarter : cosFold (1/4 : ℝ) = (-1, 65536) := by
  have h1 : foldIdx1 (1/4 : ℝ) = 65536 := by
    unfold foldIdx1
    rw [foldIdx0_eval_quarter]
    norm_num
  unfold cosFold
  rw [h1]
  norm_num

theorem cosFold_eval_half : cosFold (1/2 : ℝ) = (-1, 0) := by
  have h1 : foldIdx1 (1/2 : ℝ) = 131072 := by
    unfold foldIdx1
    rw [foldIdx0_eval_half]
    norm_num
  unfold cosFold
  rw [h1]
  norm_num

theorem cosFold_eval_threequarter : cosFold (3/4 : ℝ) = (1, 65536) := by
  have h1 : foldIdx1 (3/4 : ℝ) = 196608 := by
    unfold foldIdx1
    rw [foldIdx0_eval_threequarter]
    norm_num
  unfold cosFold
  rw [h1]
  norm_num

theorem cosFold_eval_one : cosFold (1 : ℝ) = (1, 0) := by
  have h1 : foldIdx1 (1 : ℝ) = 262144 := by
    unfold foldIdx1
    rw [foldIdx0_eval_one]
    norm_num
  unfold cosFold
  rw [h1]
  norm_num

theorem fastCos01_eval_0 : fastCos01 0 = some 1 := by
  unfold fastCos01
  rw [cosFold_eval_0]
  simp [cosTableGet, cosTable_zero]

theorem fastCos01_eval_half : fastCos01 (1/2 : ℝ) = some (-1) := by
  unfold fastCos01
  rw [cosFold_eval_half]
  simp [cosTableGet, cosTable_zero]

theorem fastCos01_eval_one : fastCos01 (1 : ℝ) = some 1 := by
  unfold fastCos01
  rw [cosFold_eval_one]
  simp [cosTableGet, cosTable_zero]

/-- C9: the fast cosine approximator is even (`fastCos01 (-x) = fastCos01 x`
for every `x`), returns the exact values `1, 0, -1, 0, 1` at the quadrant
boundary phases `0, 1/4, 1/2, 3/4, 1` (full-period units), and returns `0`
whenever the quarter-period fold lands exactly at the table's end index. -/
theorem fastCos01_even_and_boundary_values :
    (∀ x : ℝ, fastCos01 (-x) = fastCos01 x) ∧
    fastCos01 0 = some 1 ∧
    fastCos01 (1/4 : ℝ) = some 0 ∧
    fastCos01 (1/2 : ℝ) = some (-1) ∧
    fastCos01 (3/4 : ℝ) = some 0 ∧
    fastCos01 (1 : ℝ) = some 1 ∧
    (∀ x : ℝ, (cosFold x).2 = 65536 → fastCos01 x = some 0) := by
  refine ⟨fun x => by simp [fastCos01, cosFold_neg], fastCos01_eval_0, ?_, fastCos01_eval_half,
    ?_, fastCos01_eval_one, fun x h => by simp [fastCos01, h]⟩
  · unfold fastCos01
    rw [cosFold_eval_quarter]
    norm_num
  · unfold fastCos01
    rw [cosFold_eval_threequarter]
    norm_num

/-- Witness for C9: the even symmetry and the table-end fold cases, applied at
concrete inputs. -/
theorem fastCos01_even_and_boundary_values_witness :
    fastCos01 (-(1/2) : ℝ) = fastCos01 (1/2 : ℝ) ∧ fastCos01 (1/4 : ℝ) = some 0 :=
  ⟨fastCos01_even_and_boundary_values.1 (1/2),
   fastCos01_even_and_boundary_values.2.2.2.2.2.2 (1/4) (by rw [cosFold_eval_quarter])⟩

/-- C10: for every real `x` with `|x| ≤ 2^40`, `fastCos01` completes without
any out-of-bounds access to the 65536-entry table (it returns `some` value;
`none` would signal an out-of-bounds read), and the value lies in `[-1, 1]`. -/
theorem fastCos01_safe (x : ℝ) (h : |x| ≤ 2^40) :
    ∃ y, fastCos01 x = some y ∧ -1 ≤ y ∧ y ≤ 1 := by
  by_cases hb : (cosFold x).2 = 65536
  · refine ⟨0, ?_, by norm_num, by norm_num⟩
    simp [fastCos01, hb]
  · obtain ⟨h0, h1⟩ := cosFold_idx_bounds x
    have hlt : (cosFold x).2 < 65536 := lt_of_le_of_ne h1 hb
    have hget : cosTableGet (cosFold x).2 = some (cosTable (cosFold x).2.toNat) := by
      simp [cosTableGet, h0, hlt]
    have hcos1 : cosTable ((cosFold x).2.toNat) ≤ 1 := by
      unfold cosTable
      exact Real.cos_le_one _
    have hcos2 : -1 ≤ cosTable ((cosFold x).2.toNat) := by
      unfold cosTable
      exact Real.neg_one_le_cos _
    refine ⟨((cosFold x).1 : ℝ) * cosTable ((cosFold x).2.toNat), ?_, ?_, ?_⟩
    · simp [fastCos01, hb, hget]
    · rcases cosFold_sign x with hs | hs <;> rw [hs] <;> push_cast <;> nlinarith
    · rcases cosFold_sign x with hs | hs <;> rw [hs] <;> push_cast <;> nlinarith

/-- Witness for C10 at `x = 0`. -/
theorem fastCos01_safe_witness :
    |(0:ℝ)| ≤ 2^40 ∧ ∃ y, fastCos01 0 = some y ∧ -1 ≤ y ∧ y ≤ 1 :=
  ⟨by norm_num, fastCos01_safe 0 (by norm_num)⟩

section Kernel

/-!
Idealized interpolation kernel (claim C4 reads the table-based trigonometric
approximator as exact).  Per the approximator's contract, `fastCos01 x`
computes the cosine of `x` scaled to one full period, i.e. `cos (2πx)`:
the table index is `4·65536·x` and entry `i` holds `cos(i·(π/2)/65536)`.
The `R`-suffixed functions below are `fastCos01`/`fastSin01`/`sinc01`
(`part_002`, lines 17-52) with the table replaced by that exact value.
-/

/-- Exact-table idealization of `fastCos01`: cosine of `x` full periods. -/
noncomputable def fastCos01R (x : ℝ) : ℝ := Real.cos (2 * Real.pi * x)

/-- Model of `fastSin01`: `fastCos01(x - 0.25)`. -/
noncomputable def fastSin01R (x : ℝ) : ℝ := fastCos01R (x - 0.25)

/-- Model of `sinc01`: `1` when `|x| < 1e-8`, else `fastSin01 x / (x·2·π)`. -/
noncomputable def sinc01R (x : ℝ) : ℝ :=
  if |x| < 1e-8 then 1 else fastSin01R x / (x * 2 * Real.pi)

/-- Weight applied to the source sample at offset `d = tInSrc - n` in
`Resampling.at` (lines 170-172): `sinc01(d/2) * (0.5 + 0.5*fastCos01(d/(windowSize*2+1)))`
with `windowSize = 8`. -/
noncomputable def Resampling.weight (d : ℝ) : ℝ :=
  sinc01R (d / 2) * (0.5 + 0.5 * fastCos01R (d / (8 * 2 + 1)))

/-- Weight formula as written in the claim: `sinc(d/2) = sin(πd/2)/(πd)` and
`window(d) = 0.5 + 0.5*cos(π·d/(2W+1))` with `W = 8`. -/
noncomputable def specWeight (d : ℝ) : ℝ :=
  Real.sin (Real.pi * d / 2) / (Real.pi * d) *
    (0.5 + 0.5 * Real.cos (Real.pi * d / (2 * 8 + 1)))

theorem weight_one_eq_zero : Resampling.weight 1 = 0 := by
  unfold Resampling.weight
  have hs : sinc01R (1 / 2) = 0 := by
    unfold sinc01R
    rw [if_neg (by rw [abs_of_nonneg (by norm_num)]; norm_num)]
    unfold fastSin01R fastCos01R
    have h : 2 * Real.pi * ((1:ℝ) / 2 - 0.25) = Real.pi / 2 := by ring
    rw [h, Real.cos_pi_div_two, zero_div]
  rw [hs, zero_mul]

theorem cos_pi_div_seventeen_pos : 0 < Real.cos (Real.pi / 17) := by
  have hp := Real.pi_pos
  apply Real.cos_pos_of_mem_Ioo
  constructor
  · nlinarith
  · nlinarith

theorem specWeight_one_pos : 0 < specWeight 1 := by
  unfold specWeight
  have hp := Real.pi_pos
  have h1 : Real.pi * 1 / 2 = Real.pi / 2 := by ring
  have h2 : Real.pi * 1 / (2 * 8 + 1) = Real.pi / 17 := by ring
  rw [h1, h2, Real.sin_pi_div_two]
  have := cos_pi_div_seventeen_pos
  positivity

/-- C4 counterexample: at offset `d = 1` the code's weight is `0` (the code's
sinc kernel is `sin(πd)/(πd)`, zero at every nonzero integer), while the
claim's formula `sin(πd/2)/(πd) · (0.5+0.5·cos(πd/17))` is positive. -/
theorem weight_ne_specWeight : Resampling.weight 1 ≠ specWeight 1 := by
  rw [weight_one_eq_zero]
  exact ne_of_lt specWeight_one_pos

/-- C4 (amended): for `|d| ≥ 2e-8` the weight is
`sin(πd)/(πd) · (0.5 + 0.5·cos(2πd/17))` — the trigonometric arguments are
twice those in the claim — and the weight at `d = 0` is exactly `1`. -/
theorem weight_kernel_form :
    (∀ d : ℝ, (1e-8 : ℝ) * 2 ≤ |d| →
      Resampling.weight d =
        Real.sin (Real.pi * d) / (Real.pi * d) *
          (0.5 + 0.5 * Real.cos (2 * Real.pi * d / 17))) ∧
    Resampling.weight 0 = 1 := by
  constructor
  · intro d hd
    unfold Resampling.weight
    have hs : sinc01R (d / 2) = Real.sin (Real.pi * d) / (Real.pi * d) := by
      unfold sinc01R
      rw [if_neg]
      · unfold fastSin01R fastCos01R
        have h : 2 * Real.pi * (d / 2 - 0.25) = Real.pi * d - Real.pi / 2 := by ring
        rw [h, Real.cos_sub_pi_div_two]
        congr 1
        ring
      · rw [not_lt, abs_div, abs_of_nonneg (show (0:ℝ) ≤ 2 by norm_num)]
        rw [le_div_iff₀ (by norm_num)]
        exact hd
    have hc : fastCos01R (d / (8 * 2 + 1)) = Real.cos (2 * Real.pi * d / 17) := by
      unfold fastCos01R
      congr 1
      ring
    rw [hs, hc]
  · unfold Resampling.weight sinc01R
    rw [if_pos (by rw [abs_of_nonneg (by norm_num)]; norm_num)]
    unfold fastCos01R
    norm_num

/-- Witness for C4's amended weight formula at `d = 1`. -/
theorem weight_kernel_form_witness :
    (1e-8 : ℝ) * 2 ≤ |(1:ℝ)| ∧
    Resampling.weight 1 =
      Real.sin (Real.pi * 1) / (Real.pi * 1) *
        (0.5 + 0.5 * Real.cos (2 * Real.pi * 1 / 17)) :=
  ⟨by rw [abs_one]; norm_num, weight_kernel_form.1 1 (by rw [abs_one]; norm_num)⟩

end Kernel

section Stereo16

/-!
Model of the `Stereo16` normalizer's mono 8-bit conversion
(`part_002`, lines 251-297, case `s.mono && s.eight`).
-/

/-- Go conversion `int16(z)`: two's-complement wrap into `[-32768, 32767]`. -/
def toInt16Wrap (z : ℤ) : ℤ := Int.emod (z + 32768) 65536 - 32768

/-- Go conversion `uint8(v)`: the low byte of an integer. -/
def lowByte (v : ℤ) : ℕ := (Int.emod v 256).toNat

/-- Go expression `uint8(v >> 8)` on an `int16`: arithmetic right shift by 8
(floor division by 256), truncated to a byte. -/
def highByte (v : ℤ) : ℕ := (Int.emod (Int.fdiv v 256) 256).toNat

/-- Signed 16-bit sample encoded little-endian by bytes `lo`, `hi`
(the decoding `int16(b0) | int16(b1)<<8` used in `Resampling.src`, line 116). -/
def decodeInt16LE (lo hi : ℕ) : ℤ := toInt16Wrap ((lo : ℤ) + 256 * (hi : ℤ))

/-- Sample produced for a mono 8-bit source byte:
`v := int16(int(buf[i])*0x101 - (1 << 15))` (line 267). -/
def monoSample (b : ℕ) : ℤ := toInt16Wrap ((b : ℤ) * 257 - 32768)

/-- Conversion loop of `Stereo16.Read` in the mono 8-bit case (lines 266-272):
source byte `i` yields output bytes `4i .. 4i+3`, the sample's low and high
byte duplicated to the left and right channel. -/
def Stereo16.readMonoEight (buf : List ℕ) : List ℕ :=
  buf.flatMap (fun b =>
    [lowByte (monoSample b), highByte (monoSample b),
     lowByte (monoSample b), highByte (monoSample b)])

theorem monoSample_decode : ∀ b : ℕ, b < 256 →
    decodeInt16LE (lowByte (monoSample b)) (highByte (monoSample b)) = (b : ℤ) * 257 - 32768 := by
  decide

theorem readMonoEight_cons (b : ℕ) (t : List ℕ) :
    Stereo16.readMonoEight (b :: t) =
      [lowByte (monoSample b), highByte (monoSample b),
       lowByte (monoSample b), highByte (monoSample b)] ++ Stereo16.readMonoEight t := by
  simp [Stereo16.readMonoEight]

theorem readMonoEight_getD (buf : List ℕ) (i : ℕ) (hi : i < buf.length) (j : ℕ) (hj : j < 4) :
    (Stereo16.readMonoEight buf).getD (4 * i + j) 0 =
      [lowByte (monoSample (buf.getD i 0)), highByte (monoSample (buf.getD i 0)),
       lowByte (monoSample (buf.getD i 0)), highByte (monoSample (buf.getD i 0))].getD j 0 := by
  induction buf generalizing i with
  | nil => simp at hi
  | cons b t ih =>
    rw [readMonoEight_cons]
    cases i with
    | zero =>
      rw [List.getD_append _ _ _ _ (by simpa using hj)]
      simp
    | succ i' =>
      rw [List.getD_append_right _ _ _ _ (by simp; omega)]
      have h4 : 4 * (i' + 1) + j - 4 = 4 * i' + j := by omega
      simp only [List.length_cons] at hi
      rw [show ([lowByte (monoSample b), highByte (monoSample b), lowByte (monoSample b),
            highByte (monoSample b)].length) = 4 from rfl, h4]
      rw [ih i' (by omega)]
      simp

end Stereo16

theorem readMonoEight_frame (buf : List ℕ) (i : ℕ) (hi : i < buf.length) :
    (Stereo16.readMonoEight buf).getD (4 * i) 0 = lowByte (monoSample (buf.getD i 0)) ∧
    (Stereo16.readMonoEight buf).getD (4 * i + 1) 0 = highByte (monoSample (buf.getD i 0)) ∧
    (Stereo16.readMonoEight buf).getD (4 * i + 2) 0 = lowByte (monoSample (buf.getD i 0)) ∧
    (Stereo16.readMonoEight buf).getD (4 * i + 3) 0 = highByte (monoSample (buf.getD i 0)) := by
  have h0 := readMonoEight_getD buf i hi 0 (by norm_num)
  have h1 := readMonoEight_getD buf i hi 1 (by norm_num)
  have h2 := readMonoEight_getD buf i hi 2 (by norm_num)
  have h3 := readMonoEight_getD buf i hi 3 (by norm_num)
  rw [Nat.add_zero] at h0
  exact ⟨h0, h1, h2, h3⟩

/-- C2 counterexample: the source byte 128 is converted to the signed 16-bit
sample 128 on both channels, not 0: `128*257 − 32768 = 128`. -/
theorem stereo16_monoEight_at128 :
    decodeInt16LE ((Stereo16.readMonoEight [128]).getD 0 0)
        ((Stereo16.readMonoEight [128]).getD 1 0) = 128 ∧ (128 : ℤ) ≠ 0 := by
  decide

/-- C2 (amended): in mono 8-bit mode each source byte `b` becomes the signed
16-bit sample `b*257 − 32768`, duplicated (little-endian) to the left and
right channel of output frame `i`.  In particular byte 128 yields sample 128,
not 0 — no source byte maps exactly to sample 0. -/
theorem stereo16_monoEight_mapping (buf : List ℕ) (hb : ∀ b ∈ buf, b < 256)
    (i : ℕ) (hi : i < buf.length) :
    decodeInt16LE ((Stereo16.readMonoEight buf).getD (4 * i) 0)
        ((Stereo16.readMonoEight buf).getD (4 * i + 1) 0) = (buf.getD i 0 : ℤ) * 257 - 32768 ∧
    decodeInt16LE ((Stereo16.readMonoEight buf).getD (4 * i + 2) 0)
        ((Stereo16.readMonoEight buf).getD (4 * i + 3) 0) = (buf.getD i 0 : ℤ) * 257 - 32768 := by
  obtain ⟨h0, h1, h2, h3⟩ := readMonoEight_frame buf i hi
  have hbb : buf.getD i 0 < 256 := by
    apply hb
    rw [List.getD_eq_getElem buf 0 hi]
    exact List.getElem_mem hi
  rw [h0, h1, h2, h3]
  exact ⟨monoSample_decode _ hbb, monoSample_decode _ hbb⟩

/-- Witness for C2's amended mapping at the single-byte buffer `[200]`. -/
theorem stereo16_monoEight_mapping_witness :
    (∀ b ∈ ([200] : List ℕ), b < 256) ∧ 0 < ([200] : List ℕ).length ∧
    decodeInt16LE ((Stereo16.readMonoEight [200]).getD (4 * 0) 0)
        ((Stereo16.readMonoEight [200]).getD (4 * 0 + 1) 0) = (([200] : List ℕ).getD 0 0 : ℤ) * 257 - 32768 :=
  ⟨by decide, by decide, (stereo16_monoEight_mapping [200] (by decide) 0 (by decide)).1⟩

section Resampling

/-!
Model of the `Resampling` stream (`part_002`, lines 54-235).

The upstream `ReadSeekCloser` is abstracted by a `LoadOutcome` oracle: for
each block load it supplies the result of the `source.Seek` call and the
successive `source.Read` results consumed by the fill loop (lines 100-111).
The Go panic `"not reach"` (line 140) is modelled as the distinguished error
`IOErr.panicNotReach` with the state left unchanged.
-/

/-- Errors from the upstream stream: end-of-stream, any other I/O failure
(tagged by a code), or the `"not reach"` panic of `Resampling.src`. -/
inductive IOErr where
  | eof
  | ioFail (code : ℕ)
  | panicNotReach
deriving DecidableEq

/-- Construction parameters: total source size in bytes, source rate `from`
(`fromRate` here, `from` is reserved), target rate `to`. -/
structure Params where
  size : ℤ
  fromRate : ℤ
  toRate : ℤ
deriving DecidableEq

/-- Mutable state of a `Resampling` stream: the last loaded block index, the
two sample maps, the LRU list, and the output cursor `pos`. -/
structure RState where
  srcBlock : ℤ
  srcBufL : List (ℤ × List ℚ)
  srcBufR : List (ℤ × List ℚ)
  lruSrcBlocks : List ℤ
  pos : ℤ
deriving DecidableEq

/-- State built by `NewResampling`: empty maps, empty LRU list, `srcBlock = -1`,
cursor at 0. -/
def NewResampling : RState :=
  { srcBlock := -1, srcBufL := [], srcBufR := [], lruSrcBlocks := [], pos := 0 }

/-- Model of `Resampling.Length` (lines 79-82):
`s := int64(float64(size) * float64(to) / float64(from)); return s / 4 * 4`. -/
def Resampling.Length (p : Params) : ℤ :=
  Int.tdiv (ratTrunc ((p.size : ℚ) * (p.toRate : ℚ) / (p.fromRate : ℚ))) 4 * 4

/-- Go map read `m[k]`. -/
def mapLookup (m : List (ℤ × List ℚ)) (k : ℤ) : Option (List ℚ) :=
  match m with
  | [] => none
  | (k', v) :: rest => if k' = k then some v else mapLookup rest k

/-- Go map `delete(m, k)`. -/
def mapDelete (m : List (ℤ × List ℚ)) (k : ℤ) : List (ℤ × List ℚ) :=
  match m with
  | [] => []
  | (k', v) :: rest => if k' = k then mapDelete rest k else (k', v) :: mapDelete rest k

/-- Key set of a sample map. -/
def keys (m : List (ℤ × List ℚ)) : List ℤ := m.map Prod.fst

/-- Oracle for one block load: the outcome of the `source.Seek` call (consulted
only when a seek is performed) and the successive `source.Read` results. -/
structure LoadOutcome where
  seekRes : Option IOErr
  reads : List (List ℕ × Option IOErr)

/-- Fill loop of `Resampling.src` (lines 100-111): keep reading until `cap`
bytes are collected; `io.EOF` stops the loop keeping the bytes read so far,
any other error aborts the load.  An exhausted oracle behaves like a source
that stops delivering (end of stream). -/
def readFill (cap : ℕ) (rs : List (List ℕ × Option IOErr)) (acc : List ℕ) :
    Except IOErr (List ℕ) :=
  if cap ≤ acc.length then Except.ok acc
  else
    match rs with
    | [] => Except.ok acc
    | (bs, e) :: rest =>
      let acc' := acc ++ bs.take (cap - acc.length)
      match e with
      | some IOErr.eof => Except.ok acc'
      | some err => Except.error err
      | none => readFill cap rest acc'

/-- Decode loop of `Resampling.src` (lines 113-118) for the channel at byte
offset `off` (`0` = left, `2` = right): frame `j` of the block is
`int16(buf[4j+off]) | int16(buf[4j+off+1])<<8`, normalized by `1<<15 - 1`;
frames beyond `len(buf)/4` stay at the zero value of `make`.  The `% 256`
reflects that `source.Read` delivers `uint8` values. -/
def decodeSamples (buf : List ℕ) (off : ℕ) : List ℚ :=
  (List.range 4096).map (fun j =>
    if j < buf.length / 4 then
      ((decodeInt16LE (buf.getD (4 * j + off) 0 % 256) (buf.getD (4 * j + off + 1) 0 % 256) : ℤ) : ℚ) / 32767
    else 0)

/-- Samples returned by `Resampling.src` (line 146):
`r.srcBufL[r.srcBlock][ii], r.srcBufR[r.srcBlock][ii]` with `ii = i % 4096`
(`i ≥ 0` at this point, so Go `%` is `Int.emod`). -/
def sampleAt (st : RState) (i : ℤ) : ℚ × ℚ :=
  (((mapLookup st.srcBufL st.srcBlock).getD []).getD (Int.emod i 4096).toNat 0,
   ((mapLookup st.srcBufR st.srcBlock).getD []).getD (Int.emod i 4096).toNat 0)

/-- Cached-branch state update of `Resampling.src` (lines 130-143): set
`srcBlock` and move the block to the most-recently-used position (the scan
finds its unique index; erase-then-append is that same splice). -/
def srcTouch (st : RState) (nextPos : ℤ) : RState :=
  { st with srcBlock := nextPos,
            lruSrcBlocks := st.lruSrcBlocks.erase nextPos ++ [nextPos] }

/-- Load-branch state update of `Resampling.src` (lines 119-129): store the
decoded block in both maps, then if the LRU list already has at least 4
entries evict its front from both maps and drop it, then append the new
block index. -/
def srcInsert (st : RState) (nextPos : ℤ) (sl sr : List ℚ) : RState :=
  if 4 ≤ st.lruSrcBlocks.length then
    { st with srcBlock := nextPos,
              srcBufL := mapDelete ((nextPos, sl) :: st.srcBufL) (st.lruSrcBlocks.headD 0),
              srcBufR := mapDelete ((nextPos, sr) :: st.srcBufR) (st.lruSrcBlocks.headD 0),
              lruSrcBlocks := st.lruSrcBlocks.tail ++ [nextPos] }
  else
    { st with srcBlock := nextPos,
              srcBufL := (nextPos, sl) :: st.srcBufL,
              srcBufR := (nextPos, sr) :: st.srcBufR,
              lruSrcBlocks := st.lruSrcBlocks ++ [nextPos] }

/-- Model of `Resampling.src` (lines 84-147). -/
def Resampling.src (p : Params) (st : RState) (i : ℤ) (o : LoadOutcome) :
    Except IOErr (ℚ × ℚ) × RState :=
  if i < 0 then (Except.ok (0, 0), st)
  else if Int.tdiv p.size 4 ≤ i then (Except.ok (0, 0), st)
  else
    match mapLookup st.srcBufL (Int.tdiv i 4096) with
    | some _ =>
      if Int.tdiv i 4096 ∈ st.lruSrcBlocks then
        (Except.ok (sampleAt (srcTouch st (Int.tdiv i 4096)) i), srcTouch st (Int.tdiv i 4096))
      else (Except.error IOErr.panicNotReach, st)
    | none =>
      match (if st.srcBlock + 1 ≠ Int.tdiv i 4096 then o.seekRes else none) with
      | some e => (Except.error e, st)
      | none =>
        match readFill 16384 o.reads [] with
        | Except.error e => (Except.error e, st)
        | Except.ok buf =>
          (Except.ok
            (sampleAt (srcInsert st (Int.tdiv i 4096) (decodeSamples buf 0) (decodeSamples buf 2)) i),
           srcInsert st (Int.tdiv i 4096) (decodeSamples buf 0) (decodeSamples buf 2))

/-- Interpolation window of `Resampling.at` (lines 150-162): both ends are Go
`int64` conversions of `float64` values (truncation toward zero), then clamped
against `0` (start only) and `size/4 - 1`. -/
def Resampling.atWindow (p : Params) (t : ℤ) : ℤ × ℤ :=
  let tInSrc : ℚ := (t : ℚ) * (p.fromRate : ℚ) / (p.toRate : ℚ)
  let startN0 := ratTrunc (tInSrc - 8)
  let startN1 := if startN0 < 0 then 0 else startN0
  let startN := if Int.tdiv p.size 4 ≤ startN1 then Int.tdiv p.size 4 - 1 else startN1
  let endN0 := ratTrunc (tInSrc + 8)
  let endN := if Int.tdiv p.size 4 ≤ endN0 then Int.tdiv p.size 4 - 1 else endN0
  (startN, endN)

/-- Integer range `[a, b]` inclusive, the iteration space of
`for n := startN; n <= endN; n++`. -/
def rangeInt (a b : ℤ) : List ℤ := (List.range (b + 1 - a).toNat).map (fun k => a + (k : ℤ))

/-- Source fetches of `Resampling.at`'s loop (lines 165-175), threading the
cache state and stopping at the first error; returns the fetched samples
together with their frame indices. -/
def srcFold (p : Params) (orc : ℤ → LoadOutcome) :
    List ℤ → RState → Except IOErr (List (ℤ × ℚ × ℚ)) × RState
  | [], st => (Except.ok [], st)
  | n :: ns, st =>
    match Resampling.src p st n (orc n) with
    | (Except.error e, st') => (Except.error e, st')
    | (Except.ok s, st') =>
      match srcFold p orc ns st' with
      | (Except.ok rest, st'') => (Except.ok ((n, s) :: rest), st'')
      | (Except.error e, st'') => (Except.error e, st'')

/-- Model of `Resampling.at` (Go method `at`, a Lean keyword): fetches every
source frame of the interpolation window.  The weighted accumulation of the
fetched samples is `Resampling.atValue` below. -/
def Resampling.atFrame (p : Params) (st : RState) (t : ℤ) (orc : ℤ → LoadOutcome) :
    Except IOErr (List (ℤ × ℚ × ℚ)) × RState :=
  srcFold p orc (rangeInt (Resampling.atWindow p t).1 (Resampling.atWindow p t).2) st

/-- Accumulation and final clamp of `Resampling.at` (lines 163-188), over the
idealized real-valued kernel `Resampling.weight`. -/
noncomputable def Resampling.atValue (p : Params) (t : ℤ) (samples : List (ℤ × ℚ × ℚ)) : ℝ × ℝ :=
  let tInSrc : ℝ := (t : ℝ) * (p.fromRate : ℝ) / (p.toRate : ℝ)
  let lv := samples.foldl (fun acc s => acc + (s.2.1 : ℝ) * Resampling.weight (tInSrc - (s.1 : ℝ))) 0
  let rv := samples.foldl (fun acc s => acc + (s.2.2 : ℝ) * Resampling.weight (tInSrc - (s.1 : ℝ))) 0
  (if lv < -1 then -1 else if 1 < lv then 1 else lv,
   if rv < -1 then -1 else if 1 < rv then 1 else rv)

/-- Frame loop of `Resampling.Read` (lines 199-210): one `at` call per output
frame, aborting on the first error. -/
def readFrames (p : Params) (orc : ℤ → LoadOutcome) :
    List ℤ → RState → Except IOErr Unit × RState
  | [], st => (Except.ok (), st)
  | t :: ts, st =>
    match Resampling.atFrame p st t orc with
    | (Except.error e, st') => (Except.error e, st')
    | (Except.ok _, st') => readFrames p orc ts st'

/-- Model of `Resampling.Read` (lines 191-213), returning the byte count `n`
(the written sample bytes themselves are pure functions of the fetched
samples and are not tracked).  The cursor advances only on success. -/
def Resampling.Read (p : Params) (st : RState) (bLen : ℕ) (orc : ℤ → LoadOutcome) :
    Except IOErr ℤ × RState :=
  if st.pos = Resampling.Length p then (Except.error IOErr.eof, st)
  else
    let n0 : ℤ := ((bLen / 4) * 4 : ℕ)
    let n : ℤ := if Resampling.Length p - st.pos ≤ n0 then Resampling.Length p - st.pos else n0
    match readFrames p orc
        ((List.range (Int.tdiv n 4).toNat).map (fun k => Int.tdiv st.pos 4 + (k : ℤ))) st with
    | (Except.error e, st') => (Except.error e, st')
    | (Except.ok _, st') => (Except.ok n, { st' with pos := st'.pos + n })

/-- Seek origin constants `io.SeekStart`, `io.SeekCurrent`, `io.SeekEnd`. -/
inductive Whence where
  | seekStart
  | seekCurrent
  | seekEnd
deriving DecidableEq

/-- Cursor value set by the `switch` of `Resampling.Seek` (lines 216-223)
before clamping.  Note the `io.SeekEnd` case is `r.pos += r.Length() + offset`
in the source: it adds to the current cursor. -/
def Resampling.seekTarget (p : Params) (st : RState) (offset : ℤ) : Whence → ℤ
  | Whence.seekStart => offset
  | Whence.seekCurrent => st.pos + offset
  | Whence.seekEnd => st.pos + (Resampling.Length p + offset)

/-- Model of `Resampling.Seek` (lines 215-231): switch on the origin, then
clamp into `[0, Length]`; always returns without error. -/
def Resampling.Seek (p : Params) (st : RState) (offset : ℤ) (wh : Whence) : ℤ × RState :=
  let pos1 := Resampling.seekTarget p st offset wh
  let pos2 := if pos1 < 0 then 0 else pos1
  let pos3 := if Resampling.Length p ≤ pos2 then Resampling.Length p else pos2
  (pos3, { st with pos := pos3 })

/-- One public operation on a `Resampling` stream (a direct `src` fetch, a
`Read`, or a `Seek`), together with its upstream oracle. -/
inductive ResOp where
  | opSrc (i : ℤ) (o : LoadOutcome)
  | opRead (len : ℕ) (orc : ℤ → LoadOutcome)
  | opSeek (off : ℤ) (wh : Whence)

/-- State reached after one operation. -/
def runOp (p : Params) (st : RState) : ResOp → RState
  | ResOp.opSrc i o => (Resampling.src p st i o).2
  | ResOp.opRead l orc => (Resampling.Read p st l orc).2
  | ResOp.opSeek off wh => (Resampling.Seek p st off wh).2

/-- State reached after a sequence of operations. -/
def runOps (p : Params) (ops : List ResOp) (st : RState) : RState :=
  ops.foldl (runOp p) st

/-- Cache well-formedness: the LRU list has no duplicates and at most 4
entries, the key multiset of the left sample map is exactly the LRU list, and
the two sample maps have identical keys. -/
def cacheInv (st : RState) : Prop :=
  st.lruSrcBlocks.Nodup ∧
  st.lruSrcBlocks.length ≤ 4 ∧
  List.Perm (keys st.srcBufL) st.lruSrcBlocks ∧
  keys st.srcBufL = keys st.srcBufR

end Resampling

section CacheLemmas

theorem keys_cons (k : ℤ) (v : List ℚ) (m : List (ℤ × List ℚ)) :
    keys ((k, v) :: m) = k :: keys m := rfl

theorem mapLookup_eq_none_iff (m : List (ℤ × List ℚ)) (k : ℤ) :
    mapLookup m k = none ↔ k ∉ keys m := by
  induction m with
  | nil => simp [mapLookup, keys]
  | cons kv rest ih =>
    obtain ⟨k', v⟩ := kv
    by_cases hk : k' = k
    · subst hk
      simp [mapLookup, keys]
    · simp [mapLookup, hk, keys_cons, ih]
      tauto

theorem mapLookup_isSome_iff (m : List (ℤ × List ℚ)) (k : ℤ) :
    (mapLookup m k).isSome ↔ k ∈ keys m := by
  rcases h : mapLookup m k with _ | v
  · simp [(mapLookup_eq_none_iff m k).mp h]
  · have h2 : ¬mapLookup m k = none := by simp [h]
    rw [mapLookup_eq_none_iff] at h2
    simp [not_not.mp h2]

theorem keys_mapDelete (m : List (ℤ × List ℚ)) (k : ℤ) :
    keys (mapDelete m k) = (keys m).filter (fun x => decide (x ≠ k)) := by
  induction m with
  | nil => rfl
  | cons kv rest ih =>
    obtain ⟨k', v⟩ := kv
    by_cases hk : k' = k
    · have h1 : mapDelete ((k', v) :: rest) k = mapDelete rest k := by
        simp [mapDelete, hk]
      have h2 : (keys ((k', v) :: rest)).filter (fun x => decide (x ≠ k)) =
          (keys rest).filter (fun x => decide (x ≠ k)) := by
        rw [keys_cons, List.filter_cons]
        simp [hk]
      rw [h1, h2, ih]
    · have h1 : mapDelete ((k', v) :: rest) k = (k', v) :: mapDelete rest k := by
        simp [mapDelete, hk]
      have h2 : (keys ((k', v) :: rest)).filter (fun x => decide (x ≠ k)) =
          k' :: (keys rest).filter (fun x => decide (x ≠ k)) := by
        rw [keys_cons, List.filter_cons]
        simp [hk]
      rw [h1, h2, keys_cons, ih]

end CacheLemmas

theorem cacheInv_srcTouch {st : RState} (h : cacheInv st) {b : ℤ}
    (hb : b ∈ st.lruSrcBlocks) : cacheInv (srcTouch st b) := by
  obtain ⟨hnd, hlen, hperm, hkeys⟩ := h
  refine ⟨?_, ?_, ?_, hkeys⟩
  · have h1 : (st.lruSrcBlocks.erase b).Nodup := hnd.erase b
    have h2 : b ∉ st.lruSrcBlocks.erase b := hnd.not_mem_erase
    simp [srcTouch, List.nodup_append, h1, h2]
  · have h3 := List.length_erase_of_mem hb
    have h4 : 1 ≤ st.lruSrcBlocks.length := List.length_pos.mpr (List.ne_nil_of_mem hb)
    simp only [srcTouch, List.length_append, List.length_singleton]
    omega
  · show List.Perm (keys st.srcBufL) (st.lruSrcBlocks.erase b ++ [b])
    exact hperm.trans ((List.perm_cons_erase hb).trans
      (List.perm_append_singleton _ _).symm)

theorem cacheInv_srcInsert {st : RState} (h : cacheInv st) {b : ℤ}
    (hbk : b ∉ keys st.srcBufL) (sl sr : List ℚ) : cacheInv (srcInsert st b sl sr) := by
  obtain ⟨hnd, hlen, hperm, hkeys⟩ := h
  have hbl : b ∉ st.lruSrcBlocks := fun hmem => hbk (hperm.mem_iff.mpr hmem)
  unfold srcInsert
  by_cases hc : 4 ≤ st.lruSrcBlocks.length
  · rw [if_pos hc]
    cases hl : st.lruSrcBlocks with
    | nil =>
      rw [hl] at hc
      simp at hc
    | cons p t =>
      rw [hl] at hnd hlen hperm hbl
      have hbp : b ≠ p := fun hbp => hbl (hbp ▸ List.mem_cons_self p t)
      have hpnt : p ∉ t := (List.nodup_cons.mp hnd).1
      have htnd : t.Nodup := (List.nodup_cons.mp hnd).2
      have hbt : b ∉ t := fun hbt => hbl (List.mem_cons_of_mem p hbt)
      have h5 : List.filter (fun x => decide (x ≠ p)) (p :: t) = t := by
        rw [List.filter_cons]
        have hdp : (decide (p ≠ p) : Bool) = false := by simp
        rw [hdp]
        simp only [Bool.false_eq_true, if_false]
        rw [List.filter_eq_self]
        intro a ha
        simp only [decide_eq_true_eq]
        exact fun hap => hpnt (hap ▸ ha)
      have hfilt : List.Perm (List.filter (fun x => decide (x ≠ p)) (keys st.srcBufL)) t := by
        have h6 : List.Perm (List.filter (fun x => decide (x ≠ p)) (p :: t)) t := by
          rw [h5]
        exact (hperm.filter _).trans h6
      refine ⟨?_, ?_, ?_, ?_⟩
      · show ((p :: t).tail ++ [b]).Nodup
        simp [List.nodup_append, htnd, hbt]
      · show ((p :: t).tail ++ [b]).length ≤ 4
        simp only [List.tail_cons, List.length_append, List.length_cons] at hlen ⊢
        simp only [List.length_nil]
        omega
      · show List.Perm (keys (mapDelete ((b, sl) :: st.srcBufL) ((p :: t).headD 0)))
          ((p :: t).tail ++ [b])
        rw [show (p :: t).headD 0 = p from rfl, show (p :: t).tail = t from rfl]
        rw [keys_mapDelete, keys_cons, List.filter_cons]
        have hd : (decide (b ≠ p) : Bool) = true := by simp [hbp]
        rw [hd]
        simp only [if_true]
        exact ((hfilt.cons b).trans (List.perm_append_singleton b t).symm)
      · show keys (mapDelete ((b, sl) :: st.srcBufL) ((p :: t).headD 0)) =
          keys (mapDelete ((b, sr) :: st.srcBufR) ((p :: t).headD 0))
        rw [keys_mapDelete, keys_mapDelete, keys_cons, keys_cons, hkeys]
  · rw [if_neg hc]
    refine ⟨?_, ?_, ?_, ?_⟩
    · show (st.lruSrcBlocks ++ [b]).Nodup
      simp [List.nodup_append, hnd, hbl]
    · show (st.lruSrcBlocks ++ [b]).length ≤ 4
      simp only [List.length_append, List.length_cons, List.length_nil]
      omega
    · show List.Perm (keys ((b, sl) :: st.srcBufL)) (st.lruSrcBlocks ++ [b])
      rw [keys_cons]
      exact (hperm.cons b).trans (List.perm_append_singleton b st.lruSrcBlocks).symm
    · show keys ((b, sl) :: st.srcBufL) = keys ((b, sr) :: st.srcBufR)
      rw [keys_cons, keys_cons, hkeys]

theorem pos_srcTouch (st : RState) (b : ℤ) : (srcTouch st b).pos = st.pos := rfl

theorem pos_srcInsert (st : RState) (b : ℤ) (sl sr : List ℚ) :
    (srcInsert st b sl sr).pos = st.pos := by
  unfold srcInsert
  split <;> rfl

theorem cacheInv_src (p : Params) (st : RState) (i : ℤ) (o : LoadOutcome)
    (h : cacheInv st) : cacheInv (Resampling.src p st i o).2 := by
  unfold Resampling.src
  split
  · exact h
  split
  · exact h
  split
  · split
    · exact cacheInv_srcTouch h (by assumption)
    · exact h
  · split
    · exact h
    · split
      · exact h
      · apply cacheInv_srcInsert h ?_
        rw [← mapLookup_eq_none_iff]
        assumption

theorem pos_src (p : Params) (st : RState) (i : ℤ) (o : LoadOutcome) :
    (Resampling.src p st i o).2.pos = st.pos := by
  unfold Resampling.src
  split
  · rfl
  split
  · rfl
  split
  · split
    · exact pos_srcTouch st _
    · rfl
  · split
    · rfl
    · split
      · rfl
      · exact pos_srcInsert st _ _ _

theorem cacheInv_srcFold (p : Params) (orc : ℤ → LoadOutcome) (ns : List ℤ) (st : RState)
    (h : cacheInv st) : cacheInv (srcFold p orc ns st).2 := by
  induction ns generalizing st with
  | nil => exact h
  | cons n ns ih =>
    unfold srcFold
    cases hs : Resampling.src p st n (orc n) with
    | mk res st' =>
      have h' : cacheInv st' := by
        have := cacheInv_src p st n (orc n) h
        rw [hs] at this
        exact this
      cases res with
      | error e => exact h'
      | ok s =>
        dsimp only
        cases hf : srcFold p orc ns st' with
        | mk res' st'' =>
          have h'' : cacheInv st'' := by
            have := ih st' h'
            rw [hf] at this
            exact this
          cases res' with
          | error e => exact h''
          | ok rest => exact h''

theorem pos_srcFold (p : Params) (orc : ℤ → LoadOutcome) (ns : List ℤ) (st : RState) :
    (srcFold p orc ns st).2.pos = st.pos := by
  induction ns generalizing st with
  | nil => rfl
  | cons n ns ih =>
    unfold srcFold
    cases hs : Resampling.src p st n (orc n) with
    | mk res st' =>
      have h' : st'.pos = st.pos := by
        have := pos_src p st n (orc n)
        rw [hs] at this
        exact this
      cases res with
      | error e => exact h'
      | ok s =>
        dsimp only
        cases hf : srcFold p orc ns st' with
        | mk res' st'' =>
          have h'' : st''.pos = st'.pos := by
            have := ih st'
            rw [hf] at this
            exact this
          cases res' with
          | error e => exact h''.trans h'
          | ok rest => exact h''.trans h'

theorem cacheInv_atFrame (p : Params) (st : RState) (t : ℤ) (orc : ℤ → LoadOutcome)
    (h : cacheInv st) : cacheInv (Resampling.atFrame p st t orc).2 :=
  cacheInv_srcFold p orc _ st h

theorem pos_atFrame (p : Params) (st : RState) (t : ℤ) (orc : ℤ → LoadOutcome) :
    (Resampling.atFrame p st t orc).2.pos = st.pos :=
  pos_srcFold p orc _ st

theorem cacheInv_readFrames (p : Params) (orc : ℤ → LoadOutcome) (ts : List ℤ) (st : RState)
    (h : cacheInv st) : cacheInv (readFrames p orc ts st).2 := by
  induction ts generalizing st with
  | nil => exact h
  | cons t ts ih =>
    unfold readFrames
    cases hs : Resampling.atFrame p st t orc with
    | mk res st' =>
      have h' : cacheInv st' := by
        have := cacheInv_atFrame p st t orc h
        rw [hs] at this
        exact this
      cases res with
      | error e => exact h'
      | ok u => exact ih st' h'

theorem pos_readFrames (p : Params) (orc : ℤ → LoadOutcome) (ts : List ℤ) (st : RState) :
    (readFrames p orc ts st).2.pos = st.pos := by
  induction ts generalizing st with
  | nil => rfl
  | cons t ts ih =>
    unfold readFrames
    cases hs : Resampling.atFrame p st t orc with
    | mk res st' =>
      have h' : st'.pos = st.pos := by
        have := pos_atFrame p st t orc
        rw [hs] at this
        exact this
      cases res with
      | error e => exact h'
      | ok u => exact (ih st').trans h'

theorem cacheInv_read (p : Params) (st : RState) (bLen : ℕ) (orc : ℤ → LoadOutcome)
    (h : cacheInv st) : cacheInv (Resampling.Read p st bLen orc).2 := by
  unfold Resampling.Read
  split
  · exact h
  · dsimp only
    cases hs : readFrames p orc
        ((List.range (Int.tdiv (if Resampling.Length p - st.pos ≤ (((bLen / 4) * 4 : ℕ) : ℤ) then
          Resampling.Length p - st.pos else (((bLen / 4) * 4 : ℕ) : ℤ)) 4).toNat).map
          (fun k => Int.tdiv st.pos 4 + (k : ℤ))) st with
    | mk res st' =>
      have h' : cacheInv st' := by
        have h2 := cacheInv_readFrames p orc
          ((List.range (Int.tdiv (if Resampling.Length p - st.pos ≤ (((bLen / 4) * 4 : ℕ) : ℤ) then
            Resampling.Length p - st.pos else (((bLen / 4) * 4 : ℕ) : ℤ)) 4).toNat).map
            (fun k => Int.tdiv st.pos 4 + (k : ℤ))) st h
        rw [hs] at h2
        exact h2
      cases res with
      | error e => exact h'
      | ok u => exact ⟨h'.1, h'.2.1, h'.2.2.1, h'.2.2.2⟩

theorem cacheInv_seek (p : Params) (st : RState) (off : ℤ) (wh : Whence)
    (h : cacheInv st) : cacheInv (Resampling.Seek p st off wh).2 :=
  ⟨h.1, h.2.1, h.2.2.1, h.2.2.2⟩

theorem cacheInv_runOp (p : Params) (st : RState) (op : ResOp) (h : cacheInv st) :
    cacheInv (runOp p st op) := by
  cases op with
  | opSrc i o => exact cacheInv_src p st i o h
  | opRead l orc => exact cacheInv_read p st l orc h
  | opSeek off wh => exact cacheInv_seek p st off wh h

theorem cacheInv_runOps (p : Params) (ops : List ResOp) (st : RState) (h : cacheInv st) :
    cacheInv (runOps p ops st) := by
  induction ops generalizing st with
  | nil => exact h
  | cons op ops ih => exact ih (runOp p st op) (cacheInv_runOp p st op h)

theorem cacheInv_init : cacheInv NewResampling := by
  refine ⟨?_, ?_, ?_, ?_⟩ <;> simp [NewResampling, keys]

/-- C5: starting from the freshly constructed stream, after any finite
sequence of `src`/`Read`/`Seek` operations (hence after each operation of any
such sequence) the cache holds at most 4 resident blocks, each block index
appears at most once among the cached entries, and the indices in the LRU
list are exactly the keys of both sample maps. -/
theorem resampling_cache_invariant (p : Params) (ops : List ResOp) :
    (runOps p ops NewResampling).srcBufL.length ≤ 4 ∧
    (runOps p ops NewResampling).srcBufR.length ≤ 4 ∧
    (keys (runOps p ops NewResampling).srcBufL).Nodup ∧
    (keys (runOps p ops NewResampling).srcBufR).Nodup ∧
    (∀ b : ℤ, b ∈ (runOps p ops NewResampling).lruSrcBlocks ↔
      b ∈ keys (runOps p ops NewResampling).srcBufL) ∧
    (∀ b : ℤ, b ∈ (runOps p ops NewResampling).lruSrcBlocks ↔
      b ∈ keys (runOps p ops NewResampling).srcBufR) := by
  obtain ⟨hnd, hlen, hperm, hkeys⟩ := cacheInv_runOps p ops NewResampling cacheInv_init
  have hkL : (keys (runOps p ops NewResampling).srcBufL).Nodup := hperm.nodup_iff.mpr hnd
  have hlenL : (runOps p ops NewResampling).srcBufL.length ≤ 4 := by
    have h1 : (keys (runOps p ops NewResampling).srcBufL).length =
        (runOps p ops NewResampling).srcBufL.length := List.length_map _ _
    have h2 := hperm.length_eq
    omega
  refine ⟨hlenL, ?_, hkL, ?_, fun b => (hperm.mem_iff).symm, fun b => ?_⟩
  · have h1 : (keys (runOps p ops NewResampling).srcBufR).length =
        (runOps p ops NewResampling).srcBufR.length := List.length_map _ _
    rw [← hkeys] at h1
    have h2 := hperm.length_eq
    omega
  · rw [← hkeys]
    exact hkL
  · rw [← hkeys]
    exact (hperm.mem_iff).symm

theorem mapLookup_cons_self (k : ℤ) (v : List ℚ) (m : List (ℤ × List ℚ)) :
    mapLookup ((k, v) :: m) k = some v := by
  simp [mapLookup]

theorem mapDelete_cons_ne (k : ℤ) (v : List ℚ) (m : List (ℤ × List ℚ)) {p : ℤ} (h : k ≠ p) :
    mapDelete ((k, v) :: m) p = (k, v) :: mapDelete m p := by
  simp [mapDelete, h]

theorem mapLookup_srcInsert_self {st : RState} {b : ℤ} (hb : b ∉ st.lruSrcBlocks)
    (sl sr : List ℚ) :
    mapLookup (srcInsert st b sl sr).srcBufL b = some sl ∧
    mapLookup (srcInsert st b sl sr).srcBufR b = some sr := by
  unfold srcInsert
  by_cases hc : 4 ≤ st.lruSrcBlocks.length
  · rw [if_pos hc]
    cases hl : st.lruSrcBlocks with
    | nil =>
      rw [hl] at hc
      simp at hc
    | cons p t =>
      have hbp : b ≠ p := by
        rw [hl] at hb
        exact fun hbp => hb (hbp ▸ List.mem_cons_self p t)
      constructor
      · show mapLookup (mapDelete ((b, sl) :: st.srcBufL) ((p :: t).headD 0)) b = some sl
        rw [show (p :: t).headD 0 = p from rfl, mapDelete_cons_ne b sl _ hbp,
          mapLookup_cons_self]
      · show mapLookup (mapDelete ((b, sr) :: st.srcBufR) ((p :: t).headD 0)) b = some sr
        rw [show (p :: t).headD 0 = p from rfl, mapDelete_cons_ne b sr _ hbp,
          mapLookup_cons_self]
  · rw [if_neg hc]
    exact ⟨mapLookup_cons_self b sl _, mapLookup_cons_self b sr _⟩

theorem decodeSamples_length (buf : List ℕ) (off : ℕ) : (decodeSamples buf off).length = 4096 := by
  simp [decodeSamples]

theorem decodeSamples_getD (buf : List ℕ) (off : ℕ) (j : ℕ) (hj : j < 4096) :
    (decodeSamples buf off).getD j 0 =
      if j < buf.length / 4 then
        ((decodeInt16LE (buf.getD (4 * j + off) 0 % 256) (buf.getD (4 * j + off + 1) 0 % 256) : ℤ) : ℚ) / 32767
      else 0 := by
  unfold decodeSamples
  rw [List.getD_eq_getElem?_getD, List.getElem?_map, List.getElem?_range hj]
  rfl

theorem decodeSamples_padding (buf : List ℕ) (off : ℕ) (j : ℕ) (hj : j < 4096)
    (hshort : buf.length / 4 ≤ j) : (decodeSamples buf off).getD j 0 = 0 := by
  rw [decodeSamples_getD buf off j hj, if_neg (by omega)]

theorem src_uncached_eval (p : Params) (st : RState) (i : ℤ) (o : LoadOutcome)
    (h0 : ¬i < 0) (h1 : ¬Int.tdiv p.size 4 ≤ i)
    (hun : mapLookup st.srcBufL (Int.tdiv i 4096) = none) :
    Resampling.src p st i o =
      match (if st.srcBlock + 1 ≠ Int.tdiv i 4096 then o.seekRes else none) with
      | some e => (Except.error e, st)
      | none =>
        match readFill 16384 o.reads [] with
        | Except.error e => (Except.error e, st)
        | Except.ok buf =>
          (Except.ok
            (sampleAt (srcInsert st (Int.tdiv i 4096) (decodeSamples buf 0) (decodeSamples buf 2)) i),
           srcInsert st (Int.tdiv i 4096) (decodeSamples buf 0) (decodeSamples buf 2)) := by
  unfold Resampling.src
  rw [if_neg h0, if_neg h1, hun]

/-- C8: when loading an uncached in-range block, (a) a failing source seek
surfaces its error and leaves the whole state — in particular both sample
maps and the LRU list — exactly as it was; (b) a non-EOF I/O error during
the block read likewise surfaces the error and leaves the state untouched;
(c) a completed (possibly EOF-shortened) read is not an error: `src` succeeds
and caches a full-length 4096-frame block whose frames beyond the bytes read
are zero; (d) an EOF result inside the fill loop is not an error. -/
theorem src_load_failure_behavior (p : Params) (st : RState) (i : ℤ) (o : LoadOutcome)
    (hinv : cacheInv st) (h0 : ¬i < 0) (h1 : ¬Int.tdiv p.size 4 ≤ i)
    (hun : mapLookup st.srcBufL (Int.tdiv i 4096) = none) :
    (∀ e, st.srcBlock + 1 ≠ Int.tdiv i 4096 → o.seekRes = some e →
      Resampling.src p st i o = (Except.error e, st)) ∧
    (∀ e, (st.srcBlock + 1 = Int.tdiv i 4096 ∨ o.seekRes = none) →
      readFill 16384 o.reads [] = Except.error e →
      Resampling.src p st i o = (Except.error e, st)) ∧
    (∀ buf, (st.srcBlock + 1 = Int.tdiv i 4096 ∨ o.seekRes = none) →
      readFill 16384 o.reads [] = Except.ok buf →
      (∃ v, (Resampling.src p st i o).1 = Except.ok v) ∧
      mapLookup (Resampling.src p st i o).2.srcBufL (Int.tdiv i 4096) =
        some (decodeSamples buf 0) ∧
      mapLookup (Resampling.src p st i o).2.srcBufR (Int.tdiv i 4096) =
        some (decodeSamples buf 2) ∧
      (decodeSamples buf 0).length = 4096 ∧
      (∀ j, buf.length / 4 ≤ j → j < 4096 →
        (decodeSamples buf 0).getD j 0 = 0 ∧ (decodeSamples buf 2).getD j 0 = 0)) ∧
    (∀ bs rest acc, ¬(16384 ≤ acc.length) →
      readFill 16384 ((bs, some IOErr.eof) :: rest) acc =
        Except.ok (acc ++ bs.take (16384 - acc.length))) := by
  have hnk : Int.tdiv i 4096 ∉ keys st.srcBufL := (mapLookup_eq_none_iff _ _).mp hun
  have hnl : Int.tdiv i 4096 ∉ st.lruSrcBlocks :=
    fun hmem => hnk (hinv.2.2.1.mem_iff.mpr hmem)
  refine ⟨?_, ?_, ?_, ?_⟩
  · intro e hne hse
    rw [src_uncached_eval p st i o h0 h1 hun, if_pos hne, hse]
  · intro e hor hrf
    have hsc : (if st.srcBlock + 1 ≠ Int.tdiv i 4096 then o.seekRes else none) = none := by
      rcases hor with heq | hnone
      · rw [if_neg (by simp [heq])]
      · split <;> simp [hnone]
    rw [src_uncached_eval p st i o h0 h1 hun, hsc, hrf]
  · intro buf hor hrf
    have hsc : (if st.srcBlock + 1 ≠ Int.tdiv i 4096 then o.seekRes else none) = none := by
      rcases hor with heq | hnone
      · rw [if_neg (by simp [heq])]
      · split <;> simp [hnone]
    rw [src_uncached_eval p st i o h0 h1 hun, hsc, hrf]
    obtain ⟨hL, hR⟩ := mapLookup_srcInsert_self hnl (decodeSamples buf 0) (decodeSamples buf 2)
    exact ⟨⟨_, rfl⟩, hL, hR, decodeSamples_length buf 0,
      fun j hj1 hj2 => ⟨decodeSamples_padding buf 0 j hj2 hj1,
        decodeSamples_padding buf 2 j hj2 hj1⟩⟩
  · intro bs rest acc hacc
    unfold readFill
    rw [if_neg hacc]

/-- Witness for C8 at a fresh stream: a failing seek while loading block 1
returns the error and leaves the state exactly `NewResampling`. -/
theorem src_load_failure_behavior_witness :
    Resampling.src ⟨32768, 1, 1⟩ NewResampling 4096 ⟨some (IOErr.ioFail 7), []⟩ =
      (Except.error (IOErr.ioFail 7), NewResampling) :=
  (src_load_failure_behavior ⟨32768, 1, 1⟩ NewResampling 4096 ⟨some (IOErr.ioFail 7), []⟩
    cacheInv_init (by decide) (by decide) rfl).1 (IOErr.ioFail 7) (by decide) rfl

theorem length_nonneg (p : Params) (hs : 0 ≤ p.size) (hf : 0 < p.fromRate)
    (ht : 0 < p.toRate) : 0 ≤ Resampling.Length p := by
  have hq : 0 ≤ (p.size : ℚ) * (p.toRate : ℚ) / (p.fromRate : ℚ) := by
    apply div_nonneg
    · apply mul_nonneg
      · exact_mod_cast hs
      · exact_mod_cast ht.le
    · exact_mod_cast hf.le
  have hfl : 0 ≤ ratTrunc ((p.size : ℚ) * (p.toRate : ℚ) / (p.fromRate : ℚ)) := by
    rw [ratTrunc_nonneg hq]
    exact Int.floor_nonneg.mpr hq
  unfold Resampling.Length
  have := Int.tdiv_nonneg hfl (show (0:ℤ) ≤ 4 by norm_num)
  omega

/-- C7: for a nonnegative source size and positive rates, `Length()` is a
nonnegative multiple of 4. -/
theorem length_nonneg_multiple_of_four (p : Params) (hs : 0 ≤ p.size)
    (hf : 0 < p.fromRate) (ht : 0 < p.toRate) :
    0 ≤ Resampling.Length p ∧ 4 ∣ Resampling.Length p :=
  ⟨length_nonneg p hs hf ht,
   ⟨Int.tdiv (ratTrunc ((p.size : ℚ) * (p.toRate : ℚ) / (p.fromRate : ℚ))) 4, by
     unfold Resampling.Length
     ring⟩⟩

/-- Witness for C7 at `size = 10`, rates `1 → 1`. -/
theorem length_nonneg_multiple_of_four_witness :
    (0 : ℤ) ≤ 10 ∧ (0 : ℤ) < 1 ∧
    (0 ≤ Resampling.Length ⟨10, 1, 1⟩ ∧ 4 ∣ Resampling.Length ⟨10, 1, 1⟩) :=
  ⟨by decide, by decide,
   length_nonneg_multiple_of_four ⟨10, 1, 1⟩ (by decide) (by decide) (by decide)⟩

theorem length_eval_16 : Resampling.Length ⟨16, 1, 1⟩ = 16 := by
  unfold Resampling.Length
  have h2 : (((⟨16, 1, 1⟩ : Params).size : ℚ) * ((⟨16, 1, 1⟩ : Params).toRate : ℚ) /
      ((⟨16, 1, 1⟩ : Params).fromRate : ℚ)) = 16 := by norm_num
  rw [h2]
  rw [ratTrunc_nonneg (by norm_num)]
  rw [show ⌊(16 : ℚ)⌋ = 16 by norm_num]
  decide

/-- C1 (code bug): with the End origin `Resampling.Seek` executes
`r.pos += r.Length() + offset` — it adds `Length + offset` to the current
cursor instead of positioning relative to the end.  From cursor 4 in a
stream of `Length` 16, `Seek(-4, SeekEnd)` returns 16 (the clamp of
`4 + 16 - 4`), while the claim (and the `io.Seeker` contract the method
implements) requires the clamp of `Length + offset`, which is 12. -/
theorem seekEnd_adds_to_cursor :
    (Resampling.Seek ⟨16, 1, 1⟩
        (Resampling.Seek ⟨16, 1, 1⟩ NewResampling 4 Whence.seekStart).2
        (-4) Whence.seekEnd).1 = 16 ∧
    min (max (Resampling.Length ⟨16, 1, 1⟩ + (-4)) 0) (Resampling.Length ⟨16, 1, 1⟩) = 12 ∧
    (16 : ℤ) ≠ 12 := by
  have hL := length_eval_16
  unfold Resampling.Seek Resampling.seekTarget
  rw [hL]
  refine ⟨by decide, by decide, by decide⟩

/-- C6: the cursor stays in `[0, Length]`: it is there at construction, every
`Seek` lands in `[0, Length]` (a target below 0 clamps to 0, a target at or
above `Length` clamps to `Length`), and `Read` from a cursor in `[0, Length]`
never moves it out of `[0, Length]` (in particular never past `Length`). -/
theorem cursor_always_in_bounds (p : Params) (hs : 0 ≤ p.size) (hf : 0 < p.fromRate)
    (ht : 0 < p.toRate) :
    (0 ≤ NewResampling.pos ∧ NewResampling.pos ≤ Resampling.Length p) ∧
    (∀ (st : RState) (off : ℤ) (wh : Whence),
      0 ≤ (Resampling.Seek p st off wh).2.pos ∧
      (Resampling.Seek p st off wh).2.pos ≤ Resampling.Length p ∧
      (Resampling.seekTarget p st off wh < 0 → (Resampling.Seek p st off wh).2.pos = 0) ∧
      (Resampling.Length p ≤ Resampling.seekTarget p st off wh →
        (Resampling.Seek p st off wh).2.pos = Resampling.Length p)) ∧
    (∀ (st : RState) (bLen : ℕ) (orc : ℤ → LoadOutcome),
      0 ≤ st.pos → st.pos ≤ Resampling.Length p →
      0 ≤ (Resampling.Read p st bLen orc).2.pos ∧
      (Resampling.Read p st bLen orc).2.pos ≤ Resampling.Length p) := by
  have hL : 0 ≤ Resampling.Length p := length_nonneg p hs hf ht
  refine ⟨⟨le_refl 0, hL⟩, ?_, ?_⟩
  · intro st off wh
    unfold Resampling.Seek
    dsimp only
    refine ⟨?_, ?_, ?_, ?_⟩
    · split_ifs <;> omega
    · split_ifs <;> omega
    · intro hneg
      split_ifs <;> omega
    · intro hge
      split_ifs <;> omega
  · intro st bLen orc hp0 hpL
    unfold Resampling.Read
    dsimp only
    split
    · exact ⟨hp0, hpL⟩
    · cases hrf : readFrames p orc
          ((List.range (Int.tdiv (if Resampling.Length p - st.pos ≤ (((bLen / 4) * 4 : ℕ) : ℤ) then
            Resampling.Length p - st.pos else (((bLen / 4) * 4 : ℕ) : ℤ)) 4).toNat).map
            (fun k => Int.tdiv st.pos 4 + (k : ℤ))) st with
      | mk res st' =>
        have hpos' : st'.pos = st.pos := by
          have h2 := pos_readFrames p orc
            ((List.range (Int.tdiv (if Resampling.Length p - st.pos ≤ (((bLen / 4) * 4 : ℕ) : ℤ) then
              Resampling.Length p - st.pos else (((bLen / 4) * 4 : ℕ) : ℤ)) 4).toNat).map
              (fun k => Int.tdiv st.pos 4 + (k : ℤ))) st
          rw [hrf] at h2
          exact h2
        cases res with
        | error e =>
          dsimp only
          omega
        | ok u =>
          dsimp only
          have hn0 : (0 : ℤ) ≤ (((bLen / 4) * 4 : ℕ) : ℤ) := Int.natCast_nonneg _
          split_ifs with hc <;> omega

/-- Witness for C6: concrete seek and read on a fresh 16-byte stream stay in
`[0, Length]`. -/
theorem cursor_always_in_bounds_witness :
    (0 : ℤ) ≤ 16 ∧
    (0 ≤ (Resampling.Seek ⟨16, 1, 1⟩ NewResampling (-5) Whence.seekStart).2.pos ∧
      (Resampling.Seek ⟨16, 1, 1⟩ NewResampling (-5) Whence.seekStart).2.pos ≤
        Resampling.Length ⟨16, 1, 1⟩) ∧
    (0 ≤ (Resampling.Read ⟨16, 1, 1⟩ NewResampling 8 (fun _ => ⟨none, []⟩)).2.pos ∧
      (Resampling.Read ⟨16, 1, 1⟩ NewResampling 8 (fun _ => ⟨none, []⟩)).2.pos ≤
        Resampling.Length ⟨16, 1, 1⟩) := by
  have h := cursor_always_in_bounds ⟨16, 1, 1⟩ (by decide) (by decide) (by decide)
  refine ⟨by decide, ?_, ?_⟩
  · have h2 := h.2.1 NewResampling (-5) Whence.seekStart
    exact ⟨h2.1, h2.2.1⟩
  · exact h.2.2 NewResampling 8 (fun _ => ⟨none, []⟩) (by decide) h.1.2

/-- Interpolation window as the claim states it: `[⌊tSrc − 8⌋, ⌈tSrc + 8⌉]`
with both ends clamped into `[0, size/4 − 1]`. -/
def specWindow (p : Params) (t : ℤ) : ℤ × ℤ :=
  (min (max ⌊(t : ℚ) * (p.fromRate : ℚ) / (p.toRate : ℚ) - 8⌋ 0) (Int.tdiv p.size 4 - 1),
   min (max ⌈(t : ℚ) * (p.fromRate : ℚ) / (p.toRate : ℚ) + 8⌉ 0) (Int.tdiv p.size 4 - 1))

theorem clampLow_eq (a S : ℤ) (hS : 0 < S) :
    (if S ≤ (if a < 0 then 0 else a) then S - 1 else (if a < 0 then 0 else a)) =
      min (max a 0) (S - 1) := by
  split_ifs <;> omega

theorem clampHigh_eq (e S : ℤ) (he : 0 ≤ e) (hS : 0 < S) :
    (if S ≤ e then S - 1 else e) = min (max e 0) (S - 1) := by
  split_ifs <;> omega

/-- C3 counterexample: at source rate 1, target rate 2 and output frame
`t = 1` (so `tSrc = 1/2`, `sourceFrames = 1000`), the code's window is
`[0, 8]` — the upper end is the Go truncation `int64(tSrc + 8) = 8` — while
the claimed window `[⌊tSrc − 8⌋, ⌈tSrc + 8⌉]` clamped is `[0, 9]`. -/
theorem atWindow_ne_specWindow :
    Resampling.atWindow ⟨4000, 1, 2⟩ 1 = (0, 8) ∧
    specWindow ⟨4000, 1, 2⟩ 1 = (0, 9) ∧
    ((0, 8) : ℤ × ℤ) ≠ (0, 9) := by
  have hq : ((1 : ℤ) : ℚ) * ((1 : ℤ) : ℚ) / ((2 : ℤ) : ℚ) = 1/2 := by norm_num
  refine ⟨?_, ?_, by decide⟩
  · unfold Resampling.atWindow
    dsimp only
    rw [hq]
    have h1 : ratTrunc ((1/2 : ℚ) - 8) = -7 := by
      rw [ratTrunc_neg (by norm_num), Int.ceil_eq_iff]
      norm_num
    have h2 : ratTrunc ((1/2 : ℚ) + 8) = 8 := by
      rw [ratTrunc_nonneg (by norm_num)]
      norm_num
    rw [h1, h2]
    decide
  · unfold specWindow
    dsimp only
    rw [hq]
    have h1 : ⌊(1/2 : ℚ) - 8⌋ = -8 := by norm_num
    have h2 : ⌈(1/2 : ℚ) + 8⌉ = 9 := by
      rw [Int.ceil_eq_iff]
      norm_num
    rw [h1, h2]
    decide

/-- C3 (amended): for `t ≥ 0`, positive rates and a nonempty source, the
interpolation window is `[⌊tSrc − 8⌋, ⌊tSrc + 8⌋]` — both ends are Go
truncations, so the upper end is the floor, not the ceiling — with both ends
clamped into `[0, size/4 − 1]`. -/
theorem atWindow_floor_form (p : Params) (t : ℤ) (ht : 0 ≤ t)
    (hf : 0 < p.fromRate) (hto : 0 < p.toRate) (hfr : 0 < Int.tdiv p.size 4) :
    Resampling.atWindow p t =
      (min (max ⌊(t : ℚ) * (p.fromRate : ℚ) / (p.toRate : ℚ) - 8⌋ 0) (Int.tdiv p.size 4 - 1),
       min (max ⌊(t : ℚ) * (p.fromRate : ℚ) / (p.toRate : ℚ) + 8⌋ 0) (Int.tdiv p.size 4 - 1)) := by
  have hq : 0 ≤ (t : ℚ) * (p.fromRate : ℚ) / (p.toRate : ℚ) :=
    div_nonneg (mul_nonneg (by exact_mod_cast ht) (by exact_mod_cast hf.le))
      (by exact_mod_cast hto.le)
  unfold Resampling.atWindow
  dsimp only
  rw [Prod.mk.injEq]
  constructor
  · rw [clampLow_eq (ratTrunc ((t : ℚ) * (p.fromRate : ℚ) / (p.toRate : ℚ) - 8)) _ hfr,
      max_ratTrunc_zero]
  · have hq8 : (0 : ℚ) ≤ (t : ℚ) * (p.fromRate : ℚ) / (p.toRate : ℚ) + 8 := by linarith
    rw [ratTrunc_nonneg hq8, clampHigh_eq _ _ (Int.floor_nonneg.mpr hq8) hfr]

/-- Witness for C3's amended window at `fromRate 1`, `toRate 2`, `t = 1`. -/
theorem atWindow_floor_form_witness :
    (0 : ℤ) ≤ 1 ∧ 0 < Int.tdiv (4000 : ℤ) 4 ∧
    Resampling.atWindow ⟨4000, 1, 2⟩ 1 =
      (min (max ⌊((1 : ℤ) : ℚ) * ((1 : ℤ) : ℚ) / ((2 : ℤ) : ℚ) - 8⌋ 0) (Int.tdiv (4000 : ℤ) 4 - 1),
       min (max ⌊((1 : ℤ) : ℚ) * ((1 : ℤ) : ℚ) / ((2 : ℤ) : ℚ) + 8⌋ 0) (Int.tdiv (4000 : ℤ) 4 - 1)) :=
  ⟨by decide, by decide,
   atWindow_floor_form ⟨4000, 1, 2⟩ 1 (by decide) (by decide) (by decide) (by decide)⟩
